import Mathlib

/-!
# Verification of the code-review agent's core algorithms

Shallow embedding of the context-resolution and diff-annotation engine of
the `codereview-agent` repository, with theorems settling the frozen claims
about it.

The embedding follows the Python sources:
* `src/code_review_agent/git_utils.py` (diff annotation, dependency
  extraction, file access),
* `src/code_review_agent/context_builder.py` (oracle round of context
  resolution),
* `src/code_review_agent/reviewer.py` (review call, reply parsing and
  issue normalization),
* `src/code_review_agent/cli.py` and `main.py` (the two context-resolution
  loops).

External libraries (tree-sitter queries, `json.loads`, `ast.literal_eval`,
the LLM transport, the filesystem) are modelled as explicit function
parameters; everything written in the repository itself is translated
directly.
-/

namespace CodeReviewAgent

/-! ## Python string primitives used by the sources -/

/-- Python `str.splitlines` restricted to `\n`-separated text (the only
separator occurring in the inputs considered here): splits on `'\n'`,
without keeping the separators, and does not produce a trailing empty
line for text ending in `'\n'`. `""` splits to `[]`. -/
def splitlinesAux : List Char → List Char → List String
  | [], [] => []
  | [], acc => [String.mk acc.reverse]
  | '\n' :: rest, acc => String.mk acc.reverse :: splitlinesAux rest []
  | c :: rest, acc => splitlinesAux rest (c :: acc)

def splitlines (s : String) : List String :=
  splitlinesAux s.toList []

/-- Python `str.rstrip()`: drop trailing whitespace. -/
def pyRstrip (s : String) : String :=
  String.mk ((s.toList.reverse.dropWhile Char.isWhitespace).reverse)

/-- Python `str.strip()`: drop leading and trailing whitespace. -/
def pyStrip (s : String) : String :=
  String.mk (((s.toList.dropWhile Char.isWhitespace).reverse.dropWhile Char.isWhitespace).reverse)

/-- Python `s.startswith(pre)` (structural, unlike `String.startsWith`,
so that concrete instances reduce). -/
def startsWithL (s pre : String) : Bool :=
  pre.toList.isPrefixOf s.toList

/-- Python `s.endswith(suf)`. -/
def endsWithL (s suf : String) : Bool :=
  suf.toList.reverse.isPrefixOf s.toList.reverse

/-- Python `str.lower()` for the ASCII identifiers used here. -/
def pyLower (s : String) : String :=
  String.mk (s.toList.map Char.toLower)

/-- First-match association-list lookup.  Association lists built by
consing model Python dict assignment (the most recent assignment for a
key wins on lookup). -/
def dlookup {α : Type} : List (Nat × α) → Nat → Option α
  | [], _ => none
  | (k', v) :: rest, k => if k' = k then some v else dlookup rest k

/-! ## Diff data model

A parsed unified diff, as the `unidiff` library hands it to
`create_annotated_file`: a `PatchSet` is a list of hunks; every hunk line
is added, removed or context.  `unidiff` sets `target_line_no` of a
removed line to `None` and `source_line_no` of an added line to `None`;
the optional fields below keep exactly the data the Python code reads. -/

inductive DiffLine : Type
  | added (source : Option Nat) (target : Nat) (text : String)
  | removed (source : Nat) (target : Option Nat) (text : String)
  | context (source : Nat) (target : Nat) (text : String)
deriving DecidableEq, Repr

structure Hunk where
  sourceStart : Nat
  targetStart : Nat
  lines : List DiffLine
deriving DecidableEq, Repr

abbrev Patch := List Hunk

/-- One emitted row of the annotated file: old line number, new line
number, change marker and the code text, exactly the four pieces of data
the Python loop writes into each output line. -/
structure Row where
  old : Option Nat
  new : Option Nat
  marker : Char
  text : String
deriving DecidableEq, Repr

/-! ## `create_annotated_file` (git_utils.py lines 310-391)

The function builds
* `diff_info : new_lineno -> (marker, old_lineno)` from added and context
  lines, and
* `removals : key -> list of (old_lineno, text)` from removed lines,
  where `key = line.target_line_no if line.target_line_no else
  hunk.target_start` (Python truthiness: `None` and `0` both fall back to
  `hunk.target_start`),
then walks the new-file content line by line, emitting the removal rows
anchored at a line number before the row for the line itself, whose
marker defaults to context `' '` with `old = lineno` when the line is in
no hunk. -/

def diffInfoStep (m : List (Nat × Char × Option Nat)) :
    DiffLine → List (Nat × Char × Option Nat)
  | .added s t _ => (t, '+', s) :: m
  | .removed _ _ _ => m
  | .context s t _ => (t, ' ', some s) :: m

def diffInfo (p : Patch) : List (Nat × Char × Option Nat) :=
  p.foldl (fun m h => h.lines.foldl diffInfoStep m) []

/-- `line.target_line_no if line.target_line_no else hunk.target_start`. -/
def pyOptPos (t : Option Nat) (fallback : Nat) : Nat :=
  match t with
  | some k => if k = 0 then fallback else k
  | none => fallback

def removalsOfHunk (h : Hunk) (acc : List (Nat × Nat × String)) :
    List (Nat × Nat × String) :=
  h.lines.foldl (fun a l =>
    match l with
    | .removed s t txt => a ++ [(pyOptPos t h.targetStart, s, pyRstrip txt)]
    | _ => a) acc

def removals (p : Patch) : List (Nat × Nat × String) :=
  p.foldl (fun a h => removalsOfHunk h a) []

def removalRow (kv : Nat × Nat × String) : Row :=
  ⟨some kv.2.1, none, '-', kv.2.2⟩

/-- The `for i, line_text in enumerate(lines)` loop: at line number
`lineno` (1-based), first the removal rows whose key is `lineno`, then
the row for the content line itself. -/
def annotateLoop (dinfo : List (Nat × Char × Option Nat))
    (rem : List (Nat × Nat × String)) : Nat → List String → List Row
  | _, [] => []
  | lineno, t :: rest =>
      ((rem.filter (fun kv => kv.1 == lineno)).map removalRow)
        ++ ((fun mo => Row.mk mo.2 (some lineno) mo.1 t)
              ((dlookup dinfo lineno).getD (' ', some lineno))
            :: annotateLoop dinfo rem (lineno + 1) rest)

/-- The `if not diff_content` early branch: every line printed with only
its new line number. -/
def noDiffRows : Nat → List String → List Row
  | _, [] => []
  | n, t :: rest => Row.mk none (some n) ' ' t :: noDiffRows (n + 1) rest

/-- The rows emitted by `create_annotated_file(full_content,
diff_content)`.  `none` models an empty `diff_content` string; `some p`
models a diff that `PatchSet` parses into `p` (the `except` fallback of
the Python function only fires when `PatchSet` itself fails, which cannot
happen for a parsed patch). -/
def createAnnotatedRows (content : String) (diff : Option Patch) : List Row :=
  match diff with
  | none => noDiffRows 1 (splitlines content)
  | some p => annotateLoop (diffInfo p) (removals p) 1 (splitlines content)

def padLeft (w : Nat) (s : String) : String :=
  String.mk (List.replicate (w - s.length) ' ') ++ s

/-- `str(old_no) if old_no else ''` (Python truthiness: `None` and `0`
render as the empty string). -/
def oldNoStr (o : Option Nat) : String :=
  match o with
  | some n => if n = 0 then "" else toString n
  | none => ""

/-- Rendering of one row, following the f-strings of the source:
`f"{old_no:>4}      - {text}"` for removal rows and
`f"{old_no_str:>4} {lineno:>4} {marker} {line_text}"` otherwise. -/
def renderRow (r : Row) : String :=
  if r.marker == '-' then
    padLeft 4 (oldNoStr r.old) ++ "      - " ++ r.text
  else
    padLeft 4 (oldNoStr r.old) ++ " " ++ padLeft 4 (toString (r.new.getD 0))
      ++ " " ++ String.mk [r.marker] ++ " " ++ r.text

/-- The string `create_annotated_file` actually returns: the rendered
rows joined by newlines (the empty-diff branch uses the simpler format
`f"     {i+1:4d}   {line}"`). -/
def create_annotated_file (content : String) (diff : Option Patch) : String :=
  match diff with
  | none =>
      String.intercalate "\n"
        ((noDiffRows 1 (splitlines content)).map
          (fun r => "     " ++ padLeft 4 (toString (r.new.getD 0)) ++ "   " ++ r.text))
  | some p =>
      String.intercalate "\n"
        ((annotateLoop (diffInfo p) (removals p) 1 (splitlines content)).map renderRow)

/-- Dropping every row whose marker is removed. -/
def dropRemoved (rows : List Row) : List Row :=
  rows.filter (fun r => !(r.marker == '-'))

/-- Dropping every row whose marker is added. -/
def dropAdded (rows : List Row) : List Row :=
  rows.filter (fun r => !(r.marker == '+'))

/-! ## Concrete diffs used to evaluate the annotator

`unidiff` parses `" a\n-b\n c"` under header `@@ -1,3 +1,2 @@` into a
hunk with `target_start = 1` whose removed line carries no target line
number; similarly for the spec's `line2`/`line TWO` scenario. -/

/-- The diff of `"a\nb\nc"` changed to `"a\nc"` (line 2 removed). -/
def pureRemovalPatch : Patch :=
  [⟨1, 1, [DiffLine.context 1 1 "a",
           DiffLine.removed 2 none "b",
           DiffLine.context 3 2 "c"]⟩]

/-- New-file content of the pure-removal example. -/
def pureRemovalContent : String := "a\nc"

/-- New-file content of the spec's scenario: `x.py` changed from
`"line1\nline2\nline3"` to `"line1\nline TWO\nline3"`. -/
def scenarioContent : String := "line1\nline TWO\nline3"

/-- The diff of the spec's scenario (line 2 removed and re-added). -/
def scenarioPatch : Patch :=
  [⟨1, 1, [DiffLine.context 1 1 "line1",
           DiffLine.removed 2 none "line2",
           DiffLine.added none 2 "line TWO",
           DiffLine.context 3 3 "line3"]⟩]

/-! ## `extract_dependencies_from_content` (git_utils.py lines 14-75)

The Python code computes `file_extension = os.path.splitext(file_path)`
-- without taking the second component, so `file_extension` is a
*(root, ext) tuple*, not a string.  Both `file_extension not in
LANGUAGES` and `queries.get(file_extension, "")` then compare that tuple
against string keys.  `PyKey` models a Python value that is either a
string or such a tuple; Python `==` between a tuple and a string is
`False`, which is exactly the derived equality between the two
constructors. -/

/-- Python `os.path.splitext`: index of the last occurrence of `c`, or
`-1` when absent (`str.rfind`). -/
def rfindIdx (cs : List Char) (c : Char) : Int :=
  match cs.reverse.findIdx? (fun x => x == c) with
  | some j => (cs.length : Int) - 1 - j
  | none => -1

/-- Python `os.path.splitext` for a `'/'`-separated path: split at the
last dot of the basename unless the basename consists only of leading
dots up to it. -/
def splitext (p : String) : String × String :=
  let cs := p.toList
  let sepIndex := rfindIdx cs '/'
  let dotIndex := rfindIdx cs '.'
  if dotIndex > sepIndex then
    let start : Nat := (sepIndex + 1).toNat
    let d : Nat := dotIndex.toNat
    if ((cs.drop start).take (d - start)).any (fun ch => ch != '.') then
      (String.mk (cs.take d), String.mk (cs.drop d))
    else
      (p, "")
  else
    (p, "")

/-- A Python value used as a dict key in `extract_dependencies_from_content`:
either a string key of `LANGUAGES`/`queries`, or the `(root, ext)` tuple
produced by `os.path.splitext`. -/
inductive PyKey : Type
  | str (s : String)
  | pair (a b : String)
deriving DecidableEq, Repr

/-- The keys of the module-level `LANGUAGES` dict. -/
def LANGUAGES_keys : List String := [".cs", ".py", ".ts", ".tsx", ".js"]

/-- Python `key in dict` for a dict with string keys. -/
def pyKeyInKeys (k : PyKey) (keys : List String) : Bool :=
  keys.any (fun s => k == PyKey.str s)

/-- The `queries` dict of per-extension tree-sitter query strings. -/
def queries : List (String × String) :=
  [(".cs", "(using_directive (name_colon_qualified_name) @import) (class_declaration base_list: (base_list (simple_base_type) @base))"),
   (".py", "(import_statement name: (dotted_name) @import) (from_import_statement module_name: (dotted_name) @import)"),
   (".ts", "(import_statement source: (string) @import)"),
   (".tsx", "(import_statement source: (string) @import)"),
   (".js", "(import_statement source: (string) @import)")]

/-- `queries.get(file_extension, "")`: a tuple key never equals a string
key, so the lookup only succeeds for the `str` constructor. -/
def queriesGet (k : PyKey) (dflt : String) : String :=
  match k with
  | .str s => (((queries.find? (fun kv => kv.1 == s))).map Prod.snd).getD dflt
  | .pair _ _ => dflt

/-- Python `str.strip(chars)` for an explicit character set. -/
def pyStripChars (s : String) (chars : List Char) : String :=
  String.mk (((s.toList.dropWhile (chars.contains ·)).reverse.dropWhile
    (chars.contains ·)).reverse)

/-- Python `os.path.basename`. -/
def osBasename (s : String) : String :=
  String.mk ((s.toList.reverse.takeWhile (fun c => c ≠ '/')).reverse)

/-- The per-match normalization chain of
`extract_dependencies_from_content`: strip quotes and whitespace, take
the basename, the final dot segment, the first comma segment, strip. -/
def normalizeDep (imp : String) : String :=
  let clean := pyStrip (pyStripChars imp ['\'', '"'])
  let fp1 := osBasename clean
  let fp2 := (fp1.splitOn ".").getLastD ""
  let fp3 := (fp2.splitOn ",").headD ""
  pyStrip fp3

/-- Deduplicating accumulation (`dependencies` is a Python set; the
order of the returned list is irrelevant to the claims). -/
def dedupAdd (acc : List String) (s : String) : List String :=
  if acc.contains s then acc else acc ++ [s]

/-- `extract_dependencies_from_content(file_path, file_content)`, with
the tree-sitter query engine abstracted as `runQuery : query string →
content → raw capture texts`. -/
def extract_dependencies_from_content
    (runQuery : String → String → List String)
    (file_path file_content : String) : List String :=
  let pr := splitext file_path
  let file_extension : PyKey := PyKey.pair pr.1 pr.2
  if !(pyKeyInKeys file_extension LANGUAGES_keys) then
    []
  else
    let query_string := queriesGet file_extension ""
    if query_string == "" then
      []
    else
      let raw_imports := runQuery query_string file_content
      (raw_imports.map normalizeDep).foldl dedupAdd []

/-! ## Context requirements (models.py) -/

structure ContextRequirements where
  required_additional_files : List String
  is_sufficient : Bool
  reasoning : String
deriving DecidableEq, Repr

/-! ## The tiered context-resolution loop (cli.py lines 264-314)

`final_context_content` is a Python dict from path to content, modelled
as an insertion-ordered association list; `dictInsert` is dict
assignment.  The oracle call `context_builder.determine_context(...)` is
abstracted as a function of the file under analysis and the current
context; `git_utils.find_files_by_names` as `search`;
`git_utils.get_file_content` as `getContent`.  `halted` models the two
`break` statements that fire when `len(final_context_content) >
max_context_files`; `calls` counts oracle rounds (ghost data, written
nowhere else). -/

def hasKey (m : List (String × String)) (k : String) : Bool :=
  m.any (fun e => e.1 == k)

def dictInsert (m : List (String × String)) (k v : String) : List (String × String) :=
  if hasKey m k then m.map (fun kv => if kv.1 == k then (k, v) else kv)
  else m ++ [(k, v)]

structure CState where
  ctx : List (String × String)
  halted : Bool
  calls : Nat
deriving DecidableEq, Repr

/-- One iteration of `for file_path in tier` in `run_review_logic`: one
oracle round for `fp`, resolution of the requested names, insertion of
the new files, and the inner `break` when the budget is exceeded. -/
def processFile (oracle : String → List (String × String) → ContextRequirements)
    (search : List String → List String)
    (getContent : String → String)
    (maxFiles : Nat) (st : CState) (fp : String) : CState :=
  if st.halted then st
  else
    let req := oracle fp st.ctx
    let st1 : CState := ⟨st.ctx, st.halted, st.calls + 1⟩
    if req.is_sufficient || req.required_additional_files.isEmpty then st1
    else
      let newly_found_files := search req.required_additional_files
      let new_files_to_add := newly_found_files.filter (fun f => !(hasKey st1.ctx f))
      if new_files_to_add.isEmpty then st1
      else
        let ctx2 := new_files_to_add.foldl (fun m f => dictInsert m f (getContent f)) st1.ctx
        if ctx2.length > maxFiles then ⟨ctx2, true, st1.calls⟩
        else ⟨ctx2, false, st1.calls⟩

def runTier (oracle : String → List (String × String) → ContextRequirements)
    (search : List String → List String) (getContent : String → String)
    (maxFiles : Nat) (st : CState) (tier : List String) : CState :=
  tier.foldl (processFile oracle search getContent maxFiles) st

/-- `for i, tier in enumerate(file_tiers)`: the outer loop with the
tier-boundary check `if len(final_context_content) > max_context_files:
break`. -/
def runTiers (oracle : String → List (String × String) → ContextRequirements)
    (search : List String → List String) (getContent : String → String)
    (maxFiles : Nat) (st : CState) (tiers : List (List String)) : CState :=
  tiers.foldl (fun st tier =>
    if st.halted then st
    else
      let st2 := runTier oracle search getContent maxFiles st tier
      if st2.ctx.length > maxFiles then ⟨st2.ctx, true, st2.calls⟩ else st2) st

/-- The default `max_context_files` of `run_review_logic`. -/
def default_max_context_files : Nat := 25

/-! ## The flat context-resolution loop (main.py lines 20-128)

`run_agent` keeps the context as a plain list of paths, runs at most
`MAX_ITERATIONS` oracle rounds and stops early on sufficiency, on
convergence, or when the *token* count of the concatenated contents
exceeds `MAX_CONTEXT_SIZE_TOKENS` (main.py has no file-count budget).
The returned pair carries the final file list and the number of oracle
calls made. -/

def MAX_ITERATIONS : Nat := 3

def MAX_CONTEXT_SIZE_TOKENS : Nat := 100000

def count_tokens (text : String) : Nat := text.length / 4

/-- The token-check read loop: missing files are skipped
(`except FileNotFoundError: pass`). -/
def concatContext (readFile : String → Option String) (files : List String) : String :=
  String.join (files.filterMap readFile)

def agentRounds (oracle : List String → ContextRequirements)
    (readFile : String → Option String) :
    Nat → List String → Nat → List String × Nat
  | 0, files, calls => (files, calls)
  | n + 1, files, calls =>
      let req := oracle files
      let calls1 := calls + 1
      if req.is_sufficient || req.required_additional_files.isEmpty then (files, calls1)
      else
        let new_files_to_add :=
          req.required_additional_files.filter (fun f => !(files.contains f))
        if new_files_to_add.isEmpty then (files, calls1)
        else
          let files2 := files ++ new_files_to_add
          if count_tokens (concatContext readFile files2) > MAX_CONTEXT_SIZE_TOKENS then
            (files2, calls1)
          else
            agentRounds oracle readFile n files2 calls1

def run_agent_context (oracle : List String → ContextRequirements)
    (readFile : String → Option String) (changed : List String) : List String × Nat :=
  agentRounds oracle readFile MAX_ITERATIONS changed 0

/-- Thirty fresh dependency names, used to exercise the budget check. -/
def manyNames : List String := (List.range 30).map (fun i => "dep" ++ toString i)

/-! ## Oracle transport, reply parsing and issue normalization
(context_builder.py, reviewer.py, models.py)

The LLM transport either delivers a reply text or fails (any exception
out of `client.chat.completions.create` or the message access);
`json.loads` and `ast.literal_eval` are abstracted as partial parsers
into `PyVal`, a model of the Python values relevant here (`null`, bool,
int, string, list, dict; floats do not occur in any claim). -/

inductive LLMOutcome : Type
  | ok (text : String)
  | fail
deriving DecidableEq, Repr

/-- Index of the first occurrence of `sep` in the char list, scanning
from position `i`. -/
def findSubAux : List Char → List Char → Nat → Option Nat
  | [], sep, i => if sep.isEmpty then some i else Option.none
  | c :: rest, sep, i =>
      if sep.isPrefixOf (c :: rest) then some i else findSubAux rest sep (i + 1)

/-- Python `sub in s`. -/
def hasSubstr (s sub : String) : Bool :=
  (findSubAux s.toList sub.toList 0).isSome

/-- Python `s.split(sep, 1)` when `sep` occurs: the pieces before and
after the first occurrence; `none` when `sep` does not occur (so that
indexing `[1]` would raise `IndexError`). -/
def splitOnce? (s sep : String) : Option (String × String) :=
  match findSubAux s.toList sep.toList 0 with
  | Option.none => Option.none
  | some i =>
      some (String.mk (s.toList.take i), String.mk (s.toList.drop (i + sep.toList.length)))

/-- Index of the last occurrence of `sep`. -/
def rfindSub? (cs sep : List Char) : Option Nat :=
  ((List.range (cs.length + 1)).filter (fun i => sep.isPrefixOf (cs.drop i))).getLast?

/-- Python `s.rsplit(sep, 1)[0]`: everything before the last occurrence
of `sep`, or all of `s` when `sep` does not occur. -/
def rsplitFirst (s sep : String) : String :=
  match rfindSub? s.toList sep.toList with
  | Option.none => s
  | some i => String.mk (s.toList.take i)

/-- The code-fence stripping of `determine_context` (context_builder.py
lines 89-93).  `none` models the `IndexError` raised when the text
starts with a triple-backtick json fence but `split` finds no
fence-plus-newline to cut at; the surrounding `except` clause lists
`IndexError` precisely for this. -/
def stripFences (json_str : String) : Option String :=
  if startsWithL json_str "```json" then
    match splitOnce? json_str "```json\n" with
    | Option.none => Option.none
    | some pr => some (rsplitFirst pr.2 "\n```")
  else if startsWithL json_str "```" then
    some (pyStripChars json_str [Char.ofNat 96, ' ', '\n'])
  else
    some json_str

def parse_failed_req : ContextRequirements :=
  ⟨[], true, "Failed to parse LLM response."⟩

def llm_error_req : ContextRequirements :=
  ⟨[], true, "Error occurred during LLM call, aborting context search."⟩

/-- `context_builder.determine_context` as a function of the transport
outcome, with `json.loads` + `ContextRequirements(**...)` validation
abstracted as `parse`: a transport failure returns the fail-soft
`llm_error_req`; a fence-stripping or parse/validation failure returns
the fail-soft `parse_failed_req`; otherwise the parsed requirements are
returned. -/
def determine_context (parse : String → Option ContextRequirements)
    (reply : LLMOutcome) : ContextRequirements :=
  match reply with
  | LLMOutcome.fail => llm_error_req
  | LLMOutcome.ok raw =>
      let text := pyStrip raw
      match stripFences text with
      | Option.none => parse_failed_req
      | some j =>
          match parse j with
          | Option.none => parse_failed_req
          | some v => v

/-- A Python value as produced by `json.loads` / `ast.literal_eval` on
the inputs relevant here. -/
inductive PyVal : Type
  | none
  | bool (b : Bool)
  | int (n : Int)
  | str (s : String)
  | list (xs : List PyVal)
  | dict (entries : List (String × PyVal))

/-- Python truthiness. -/
def pyTruthy : PyVal → Bool
  | PyVal.none => false
  | PyVal.bool b => b
  | PyVal.int n => !(n == 0)
  | PyVal.str s => !(s == "")
  | PyVal.list xs => !xs.isEmpty
  | PyVal.dict es => !es.isEmpty

/-- Python `a or b`. -/
def pyOr (a b : PyVal) : PyVal := if pyTruthy a then a else b

/-- Python `d.get(k)` (default `None`). -/
def pyGet (d : List (String × PyVal)) (k : String) : PyVal :=
  match d.find? (fun kv => kv.1 == k) with
  | some kv => kv.2
  | Option.none => PyVal.none

/-- Python `d.get(k, dflt)`. -/
def pyGetD (d : List (String × PyVal)) (k : String) (dflt : PyVal) : PyVal :=
  match d.find? (fun kv => kv.1 == k) with
  | some kv => kv.2
  | Option.none => dflt

def digitsVal (ds : List Char) : Nat :=
  ds.foldl (fun acc c => acc * 10 + (c.toNat - 48)) 0

def digitsToInt? (ds : List Char) : Option Int :=
  if ds.isEmpty then Option.none
  else if ds.all Char.isDigit then some (Int.ofNat (digitsVal ds))
  else Option.none

/-- Python `int(<str>)`: optional sign and decimal digits after
stripping surrounding whitespace; anything else raises `ValueError`
(digit-grouping underscores are not modelled; no input here uses
them). -/
def parseIntStr? (s : String) : Option Int :=
  match (pyStrip s).toList with
  | '+' :: ds => digitsToInt? ds
  | '-' :: ds => (digitsToInt? ds).map (fun n => -n)
  | ds => digitsToInt? ds

/-- Python `int(v)`: ints pass through, bools coerce, strings parse;
`None`, lists and dicts raise `TypeError`. -/
def pyToInt? : PyVal → Option Int
  | PyVal.int n => some n
  | PyVal.bool b => some (if b then 1 else 0)
  | PyVal.str s => parseIntStr? s
  | _ => Option.none

mutual

/-- Python `repr`, to the fidelity needed for `str()` of non-string
values (inner string escaping is not modelled; no claim depends on
it). -/
def pyRepr : PyVal → String
  | PyVal.none => "None"
  | PyVal.bool b => if b then "True" else "False"
  | PyVal.int n => toString n
  | PyVal.str s => String.mk [Char.ofNat 39] ++ s ++ String.mk [Char.ofNat 39]
  | PyVal.list xs => "[" ++ String.intercalate ", " (pyReprListAux xs) ++ "]"
  | PyVal.dict es =>
      "\x7b" ++ String.intercalate ", " (pyReprDictAux es) ++ "\x7d"

def pyReprListAux : List PyVal → List String
  | [] => []
  | v :: vs => pyRepr v :: pyReprListAux vs

def pyReprDictAux : List (String × PyVal) → List String
  | [] => []
  | (k, v) :: es =>
      (String.mk [Char.ofNat 39] ++ k ++ String.mk [Char.ofNat 39]
        ++ ": " ++ pyRepr v) :: pyReprDictAux es

end

/-- Python `str(v)`. -/
def pyStr : PyVal → String
  | PyVal.str s => s
  | v => pyRepr v

/-- `IssueType.__args__` (models.py). -/
def IssueTypeArgs : List String :=
  ["LogicError", "CodeStyle", "Security", "Suggestion", "TestCoverage",
   "Clarity", "Performance", "Other"]

/-- The dict `_normalize_issue` builds before pydantic validation. -/
structure NormIssue where
  line_number : Int
  comment : String
  issue_type : String
  suggestion : PyVal

/-- Python `v in IssueType.__args__`: equality with a string only holds
for string values. -/
def issueTypeMem (v : PyVal) : Bool :=
  match v with
  | PyVal.str s => IssueTypeArgs.contains s
  | _ => false

/-- The category-recovery loop of `_normalize_issue`: the first
candidate whose lowered name plus a colon prefixes the lowered comment,
together with the comment with that prefix stripped. -/
def findCategory (comment : String) : Option (String × String) :=
  IssueTypeArgs.findSome? (fun cand =>
    if startsWithL (pyLower comment) (pyLower cand ++ ":") then
      some (cand, pyStrip (String.mk (comment.toList.drop (cand.length + 1))))
    else Option.none)

/-- The `else` leg of the issue-type assignment: recover a category from
the comment prefix, otherwise bucket as `Other`. -/
def fallbackIssue (line_number : Int) (comment : String) (suggestion : PyVal) : NormIssue :=
  match findCategory comment with
  | some pr => ⟨line_number, pr.2, pr.1, suggestion⟩
  | Option.none => ⟨line_number, comment, "Other", suggestion⟩

/-- `_normalize_issue` (reviewer.py lines 28-62).  The `match` in the
true branch cannot reach its default arm: `issueTypeMem` only holds for
string values. -/
def normalize_issue (raw : List (String × PyVal)) : NormIssue :=
  let line_val := pyOr (pyGet raw "line_number")
    (pyOr (pyGet raw "line") (pyGetD raw "lineNumber" (PyVal.int 0)))
  let line_number := (pyToInt? line_val).getD 0
  let comment := pyStr (pyOr (pyGet raw "comment")
    (pyOr (pyGet raw "message") (pyGetD raw "description" (PyVal.str ""))))
  let issue_type_val := pyOr (pyGet raw "issue_type") (pyGet raw "type")
  let suggestion := pyGet raw "suggestion"
  if pyTruthy issue_type_val && issueTypeMem issue_type_val then
    match issue_type_val with
    | PyVal.str s => ⟨line_number, comment, s, suggestion⟩
    | _ => fallbackIssue line_number comment suggestion
  else
    fallbackIssue line_number comment suggestion

/-- `CodeIssue` (models.py) after successful pydantic validation. -/
structure CodeIssue where
  line_number : Int
  issue_type : String
  comment : String
  suggestion : Option String
deriving DecidableEq, Repr

structure ReviewResult where
  issues : List CodeIssue
deriving DecidableEq, Repr

def ReviewResult.is_ok (r : ReviewResult) : Bool := r.issues.isEmpty

/-- Pydantic validation of the `Optional[str]` suggestion field: a
non-string, non-null suggestion raises `ValidationError`. -/
def validateSuggestion : PyVal → Option (Option String)
  | PyVal.none => some Option.none
  | PyVal.str s => some (some s)
  | _ => Option.none

def buildIssue (n : NormIssue) : Option CodeIssue :=
  (validateSuggestion n.suggestion).map
    (fun sg => ⟨n.line_number, n.issue_type, n.comment, sg⟩)

/-- `robust_json_parser` (reviewer.py lines 12-26): `json.loads(...,
strict=False)`, falling back to `ast.literal_eval`; `none` models the
re-raised `JSONDecodeError`. -/
def robust_json_parse (jsonParse astParse : String → Option PyVal)
    (s : String) : Option PyVal :=
  match jsonParse s with
  | some v => some v
  | Option.none => astParse s

/-- Iterating `parsed_json` in
`[_normalize_issue(issue) for issue in parsed_json]`: a list of dicts
yields its dicts; an empty dict or empty string iterates nothing; any
non-dict element (`AttributeError` inside `_normalize_issue`) or
non-iterable value (`TypeError`) is `none` — both exception classes
land in a handler of `run_review` that records an empty result, so they
are modelled uniformly. -/
def iterIssues : PyVal → Option (List (List (String × PyVal)))
  | PyVal.list xs =>
      xs.mapM (fun x =>
        match x with
        | PyVal.dict d => some d
        | _ => Option.none)
  | PyVal.dict es => if es.isEmpty then some [] else Option.none
  | PyVal.str s => if s == "" then some [] else Option.none
  | _ => Option.none

/-- Python `s.find(c)`, with `-1` modelled as `none`. -/
def pyFindChar (s : String) (c : Char) : Option Nat :=
  s.toList.findIdx? (fun x => x == c)

/-- Python `s.rfind(c)`, with `-1` modelled as `none`. -/
def pyRfindChar (s : String) (c : Char) : Option Nat :=
  match s.toList.reverse.findIdx? (fun x => x == c) with
  | some j => some (s.toList.length - 1 - j)
  | Option.none => Option.none

/-- The per-file reply handling of `run_review` (reviewer.py lines
183-204): strip the reply, locate the outermost `[` ... `]` region,
parse it with `robust_json_parser`, normalize every record and validate
the issue list; every failure path corresponds to an exception class
caught by one of the two surrounding handlers and yields
`ReviewResult(issues=[])`. -/
def processReply (jsonParse astParse : String → Option PyVal)
    (raw_response_text : String) : ReviewResult :=
  let text := pyStrip raw_response_text
  match pyFindChar text '[', pyRfindChar text ']' with
  | some s, some e =>
      if e > s then
        let json_str_cleaned := String.mk ((text.toList.drop s).take (e + 1 - s))
        match robust_json_parse jsonParse astParse json_str_cleaned with
        | Option.none => ReviewResult.mk []
        | some parsed =>
            match iterIssues parsed with
            | Option.none => ReviewResult.mk []
            | some dicts =>
                match (dicts.map normalize_issue).mapM buildIssue with
                | Option.none => ReviewResult.mk []
                | some issues => ReviewResult.mk issues
      else ReviewResult.mk []
  | _, _ => ReviewResult.mk []

/-- The `for file_path, diff_content in changed_files_map.items()` loop
of `run_review` over the per-file transport outcomes: each file gets
exactly one entry; a transport failure (`except Exception`) records an
empty `ReviewResult` and the loop continues with the remaining
files. -/
def run_review (jsonParse astParse : String → Option PyVal)
    (files : List (String × LLMOutcome)) : List (String × ReviewResult) :=
  files.map (fun pr =>
    (pr.1,
      match pr.2 with
      | LLMOutcome.fail => ReviewResult.mk []
      | LLMOutcome.ok text => processReply jsonParse astParse text))

/-! ## `get_file_content` (git_utils.py lines 133-146) -/

/-- Outcome of opening and reading a file. -/
inductive ReadResult : Type
  | found (content : String)
  | notFound
  | readErr (msg : String)
deriving DecidableEq, Repr

/-- `os.path.join` for POSIX paths, as used by `get_file_content`. -/
def osJoin (a b : String) : String :=
  if startsWithL b "/" then b
  else if a == "" || endsWithL a "/" then a ++ b
  else a ++ "/" ++ b

/-- `get_file_content(repo_path, file_path)` over an abstract filesystem
`fs` mapping a full path to its read outcome: never raises, maps a path
containing `"null"` to `""`, a missing file to a `"File not found: ..."`
sentinel and any other read failure to a `"Could not read file ..."`
sentinel. -/
def get_file_content (fs : String → ReadResult) (repo_path file_path : String) : String :=
  if hasSubstr file_path "null" then ""
  else
    let full_path := osJoin repo_path file_path
    match fs full_path with
    | ReadResult.found c => c
    | ReadResult.notFound => "File not found: " ++ full_path
    | ReadResult.readErr e => "Could not read file " ++ full_path ++ ": " ++ e

end CodeReviewAgent

namespace CodeReviewAgent

/-! ## Lemmas about the annotation loop -/

theorem mem_diffInfoStep {x : Nat × Char × Option Nat}
    {m : List (Nat × Char × Option Nat)} {l : DiffLine}
    (hm : ∀ y ∈ m, y.2.1 ≠ '-') (hx : x ∈ diffInfoStep m l) : x.2.1 ≠ '-' := by
  cases l with
  | added s t txt =>
      simp only [diffInfoStep, List.mem_cons] at hx
      rcases hx with h | h
      · subst h; exact (by decide : ('+' : Char) ≠ '-')
      · exact hm x h
  | removed s t txt => exact hm x hx
  | context s t txt =>
      simp only [diffInfoStep, List.mem_cons] at hx
      rcases hx with h | h
      · subst h; exact (by decide : (' ' : Char) ≠ '-')
      · exact hm x h

theorem mem_foldl_diffInfoStep (ls : List DiffLine) :
    ∀ (m : List (Nat × Char × Option Nat)), (∀ y ∈ m, y.2.1 ≠ '-') →
      ∀ x ∈ ls.foldl diffInfoStep m, x.2.1 ≠ '-' := by
  induction ls with
  | nil => intro m hm x hx; exact hm x hx
  | cons l ls ih =>
      intro m hm x hx
      exact ih (diffInfoStep m l) (fun y hy => mem_diffInfoStep hm hy) x hx

theorem mem_diffInfo (p : Patch) : ∀ x ∈ diffInfo p, x.2.1 ≠ '-' := by
  unfold diffInfo
  suffices h : ∀ (hs : List Hunk) (m : List (Nat × Char × Option Nat)),
      (∀ y ∈ m, y.2.1 ≠ '-') →
      ∀ x ∈ hs.foldl (fun m h => h.lines.foldl diffInfoStep m) m, x.2.1 ≠ '-' by
    intro x hx
    exact h p [] (by intro y hy; cases hy) x hx
  intro hs
  induction hs with
  | nil => intro m hm x hx; exact hm x hx
  | cons hk hs ih =>
      intro m hm x hx
      exact ih _ (mem_foldl_diffInfoStep hk.lines m hm) x hx

theorem dlookup_mem {α : Type} :
    ∀ (m : List (Nat × α)) (k : Nat) (v : α), dlookup m k = some v → (k, v) ∈ m := by
  intro m
  induction m with
  | nil => intro k v h; cases h
  | cons e rest ih =>
      intro k v h
      simp only [dlookup] at h
      by_cases hk : e.1 = k
      · rw [if_pos hk] at h
        injection h with h2
        subst hk
        subst h2
        rw [Prod.mk.eta]
        exact List.mem_cons_self _ _
      · rw [if_neg hk] at h
        exact List.mem_cons_of_mem _ (ih k v h)

theorem marker_of_dlookup (p : Patch) (k : Nat) :
    ((dlookup (diffInfo p) k).getD (' ', some k)).1 ≠ '-' := by
  cases h : dlookup (diffInfo p) k with
  | none => simp [Option.getD]
  | some e =>
      simp only [Option.getD]
      exact mem_diffInfo p (k, e) (dlookup_mem _ _ _ h)

theorem filter_removalRows (l : List (Nat × Nat × String)) :
    (l.map removalRow).filter (fun r => !(r.marker == '-')) = [] := by
  induction l with
  | nil => rfl
  | cons kv rest ih => simp [removalRow, ih]

theorem annotateLoop_dropRemoved (dinfo : List (Nat × Char × Option Nat))
    (rem : List (Nat × Nat × String))
    (hd : ∀ y ∈ dinfo, y.2.1 ≠ '-') :
    ∀ (ls : List String) (n : Nat),
      (dropRemoved (annotateLoop dinfo rem n ls)).map Row.text = ls := by
  intro ls
  induction ls with
  | nil => intro n; rfl
  | cons t rest ih =>
      intro n
      have hmarker : (((dlookup dinfo n).getD (' ', some n)).1 == '-') = false := by
        cases h : dlookup dinfo n with
        | none => simp [Option.getD]
        | some e =>
            simp only [Option.getD]
            have := hd (n, e) (dlookup_mem _ _ _ h)
            simpa using this
      simp only [dropRemoved] at ih
      simp only [annotateLoop, dropRemoved, List.filter_append]
      simp [filter_removalRows, List.filter_cons, hmarker, ih (n + 1)]

theorem noDiffRows_dropRemoved :
    ∀ (ls : List String) (n : Nat),
      (dropRemoved (noDiffRows n ls)).map Row.text = ls := by
  intro ls
  induction ls with
  | nil => intro n; rfl
  | cons t rest ih =>
      intro n
      simp only [dropRemoved] at ih ⊢
      simp [noDiffRows, List.filter_cons, ih (n + 1)]

/-! ## Claim C1 -/

/-- C1: for every new-file content `c` and every parsed unified diff `d`
(including the empty diff), dropping the rows whose marker is removed
(`'-'`) from `create_annotated_file`'s row sequence and reading the
remaining rows' code text in order reconstructs exactly the lines of
`c`. -/
theorem new_file_round_trip (content : String) (diff : Option Patch) :
    (dropRemoved (createAnnotatedRows content diff)).map Row.text
      = splitlines content := by
  cases diff with
  | none => exact noDiffRows_dropRemoved (splitlines content) 1
  | some p =>
      exact annotateLoop_dropRemoved (diffInfo p) (removals p)
        (mem_diffInfo p) (splitlines content) 1

/-! ## Claim C2 -/

/-- C2 (code bug): for the file `"a\nb\nc"` changed to `"a\nc"` (old
content `"a"`, `"b"`, `"c"`), dropping the added rows of the annotated
output and reading the texts gives `["b", "a", "c"]`, not the old file
`["a", "b", "c"]`: the removed line is anchored at `hunk.target_start`
(before line 1) because `unidiff` gives removed lines no target line
number, so the old-file round-trip fails. -/
theorem old_file_round_trip_fails_on_pure_removal :
    (dropAdded (createAnnotatedRows pureRemovalContent (some pureRemovalPatch))).map Row.text
        = ["b", "a", "c"]
      ∧ ["b", "a", "c"] ≠ ["a", "b", "c"] := by
  constructor
  · rfl
  · decide

/-! ## Claim C3 -/

/-- C3 (code bug): on the spec's scenario (`"line1\nline2\nline3"`
changed to `"line1\nline TWO\nline3"`), `create_annotated_file` emits
the removed row *first* — anchored at `hunk.target_start = 1`, before
context line 1 — and not between context line 1 and the added line as
the claim (and the repository's own `test_create_annotated_file`)
demand. -/
theorem scenario_row_order_diverges :
    createAnnotatedRows scenarioContent (some scenarioPatch)
        = [Row.mk (some 2) none '-' "line2",
           Row.mk (some 1) (some 1) ' ' "line1",
           Row.mk none (some 2) '+' "line TWO",
           Row.mk (some 3) (some 3) ' ' "line3"]
      ∧ createAnnotatedRows scenarioContent (some scenarioPatch)
        ≠ [Row.mk (some 1) (some 1) ' ' "line1",
           Row.mk (some 2) none '-' "line2",
           Row.mk none (some 2) '+' "line TWO",
           Row.mk (some 3) (some 3) ' ' "line3"] := by
  constructor
  · rfl
  · decide

/-! ## Claim C4 -/

/-- C4 (code bug): `extract_dependencies_from_content` returns `[]` for
*every* file path and content, whatever the tree-sitter engine would
capture, because `file_extension = os.path.splitext(file_path)` is a
`(root, ext)` tuple that never equals the string keys of `LANGUAGES`
(and of `queries`).  In particular a `.py` file containing `import os`
yields `[]`, contradicting the claim (and the repository's own
`test_extract_dependencies_from_content_python`). -/
theorem extract_dependencies_always_nil :
    (∀ (runQuery : String → String → List String) (path content : String),
        extract_dependencies_from_content runQuery path content = [])
      ∧ extract_dependencies_from_content (fun _ _ => ["os"]) "main.py" "import os" = [] := by
  have hall : ∀ (runQuery : String → String → List String) (path content : String),
      extract_dependencies_from_content runQuery path content = [] := by
    intro rq p c
    have hfalse : ∀ s, (PyKey.pair (splitext p).1 (splitext p).2 == PyKey.str s) = false := by
      intro s
      exact beq_eq_false_iff_ne.mpr (fun h => PyKey.noConfusion h)
    have hmem : pyKeyInKeys (PyKey.pair (splitext p).1 (splitext p).2) LANGUAGES_keys = false := by
      simp [pyKeyInKeys, LANGUAGES_keys, hfalse]
    simp [extract_dependencies_from_content, hmem]
  exact ⟨hall, hall _ _ _⟩

/-! ## Lemmas about the context-resolution loops -/

theorem dictInsert_length (m : List (String × String)) (k v : String) :
    m.length ≤ (dictInsert m k v).length := by
  unfold dictInsert
  split
  · simp
  · simp

theorem foldl_dictInsert_length (g : String → String) :
    ∀ (fs : List String) (m : List (String × String)),
      m.length ≤ (fs.foldl (fun acc f => dictInsert acc f (g f)) m).length := by
  intro fs
  induction fs with
  | nil => intro m; simp
  | cons f fs ih =>
      intro m
      calc m.length ≤ (dictInsert m f (g f)).length := dictInsert_length m f (g f)
        _ ≤ _ := ih (dictInsert m f (g f))

theorem hasKey_false_not_mem {m : List (String × String)} {f : String}
    (h : hasKey m f = false) : ∀ e ∈ m, e.1 ≠ f := by
  intro e he
  simp only [hasKey, List.any_eq_false] at h
  have := h e he
  simpa using this

theorem dictInsert_fresh {m : List (String × String)} {k : String} (v : String)
    (h : hasKey m k = false) : dictInsert m k v = m ++ [(k, v)] := by
  simp [dictInsert, h]

theorem dictInsert_fresh_length {m : List (String × String)} {k : String} (v : String)
    (h : hasKey m k = false) : (dictInsert m k v).length = m.length + 1 := by
  rw [dictInsert_fresh v h]
  simp

theorem map_replace_id {m : List (String × String)} {k v : String}
    (h : ∀ e ∈ m, e.1 = k → e = (k, v)) :
    m.map (fun kv => if kv.1 == k then (k, v) else kv) = m := by
  induction m with
  | nil => rfl
  | cons e rest ih =>
      simp only [List.map_cons]
      have htail : rest.map (fun kv => if kv.1 == k then (k, v) else kv) = rest :=
        ih (fun e' he' => h e' (List.mem_cons_of_mem _ he'))
      by_cases he : e.1 = k
      · have : e = (k, v) := h e (List.mem_cons_self _ _) he
        rw [htail]
        simp [he, this]
      · rw [htail]
        simp [he]

theorem dictInsert_keyUnique {m : List (String × String)} {k v : String}
    (h : ∀ e ∈ m, e.1 = k → e = (k, v)) (hk : hasKey m k = true) :
    dictInsert m k v = m := by
  unfold dictInsert
  rw [if_pos hk]
  exact map_replace_id h

theorem foldl_dictInsert_ext (g : String → String) :
    ∀ (fs : List String) (m : List (String × String)),
      (∀ f ∈ fs, hasKey m f = false ∨ (∀ e ∈ m, e.1 = f → e = (f, g f))) →
      ∃ ext, fs.foldl (fun acc f => dictInsert acc f (g f)) m = m ++ ext := by
  intro fs
  induction fs with
  | nil => intro m _; exact ⟨[], by simp⟩
  | cons f fs ih =>
      intro m h
      rw [List.foldl_cons]
      by_cases hk : hasKey m f = true
      · have hu : ∀ e ∈ m, e.1 = f → e = (f, g f) := by
          rcases h f (List.mem_cons_self _ _) with hc | hc
          · rw [hk] at hc; cases hc
          · exact hc
        rw [dictInsert_keyUnique hu hk]
        exact ih m (fun f' hf' => h f' (List.mem_cons_of_mem _ hf'))
      · have hk' : hasKey m f = false := by
          cases hb : hasKey m f
          · rfl
          · exact absurd hb hk
        rw [dictInsert_fresh (g f) hk']
        have hyp' : ∀ f' ∈ fs,
            hasKey (m ++ [(f, g f)]) f' = false
              ∨ (∀ e ∈ m ++ [(f, g f)], e.1 = f' → e = (f', g f')) := by
          intro f' hf'
          rcases h f' (List.mem_cons_of_mem _ hf') with hc | hc
          · by_cases hff : f = f'
            · right
              intro e he hke
              rcases List.mem_append.mp he with h1 | h1
              · exact absurd hke (hasKey_false_not_mem hc e h1)
              · have : e = (f, g f) := by simpa using h1
                rw [this, hff]
            · left
              simp only [hasKey, List.any_append] at hc ⊢
              simp [hc, hff]
          · right
            intro e he hke
            rcases List.mem_append.mp he with h1 | h1
            · exact hc e h1 hke
            · have he2 : e = (f, g f) := by simpa using h1
              rw [he2] at hke
              simp only at hke
              rw [he2, hke]
        obtain ⟨ext, hext⟩ := ih (m ++ [(f, g f)]) hyp'
        exact ⟨(f, g f) :: ext, by rw [hext]; simp⟩

theorem processFile_calls_le
    (o : String → List (String × String) → ContextRequirements)
    (s : List String → List String) (g : String → String)
    (maxF : Nat) (st : CState) (fp : String) :
    (processFile o s g maxF st fp).calls ≤ st.calls + 1 := by
  simp only [processFile]
  split
  · omega
  · split
    · simp
    · split
      · simp
      · split <;> simp

theorem processFile_ctx_ext
    (o : String → List (String × String) → ContextRequirements)
    (s : List String → List String) (g : String → String)
    (maxF : Nat) (st : CState) (fp : String) :
    ∃ ext, (processFile o s g maxF st fp).ctx = st.ctx ++ ext := by
  simp only [processFile]
  split
  · exact ⟨[], by simp⟩
  · split
    · exact ⟨[], by simp⟩
    · split
      · exact ⟨[], by simp⟩
      · have hfold : ∃ ext,
            (((s (o fp st.ctx).required_additional_files).filter
                (fun f => !(hasKey st.ctx f))).foldl
              (fun m f => dictInsert m f (g f)) st.ctx) = st.ctx ++ ext := by
          apply foldl_dictInsert_ext
          intro f hf
          left
          have := (List.mem_filter.mp hf).2
          cases hb : hasKey st.ctx f
          · rfl
          · rw [hb] at this; simp at this
        obtain ⟨ext, hext⟩ := hfold
        split
        · exact ⟨ext, hext⟩
        · exact ⟨ext, hext⟩

theorem runTier_ctx_ext
    (o : String → List (String × String) → ContextRequirements)
    (s : List String → List String) (g : String → String) (maxF : Nat) :
    ∀ (tier : List String) (st : CState),
      ∃ ext, (runTier o s g maxF st tier).ctx = st.ctx ++ ext := by
  intro tier
  induction tier with
  | nil => intro st; exact ⟨[], by simp [runTier]⟩
  | cons f t ih =>
      intro st
      obtain ⟨e1, h1⟩ := processFile_ctx_ext o s g maxF st f
      obtain ⟨e2, h2⟩ := ih (processFile o s g maxF st f)
      refine ⟨e1 ++ e2, ?_⟩
      have : runTier o s g maxF st (f :: t)
          = runTier o s g maxF (processFile o s g maxF st f) t := rfl
      rw [this, h2, h1, List.append_assoc]

theorem runTier_calls_le
    (o : String → List (String × String) → ContextRequirements)
    (s : List String → List String) (g : String → String) (maxF : Nat) :
    ∀ (tier : List String) (st : CState),
      (runTier o s g maxF st tier).calls ≤ st.calls + tier.length := by
  intro tier
  induction tier with
  | nil => intro st; simp [runTier]
  | cons f t ih =>
      intro st
      have hstep : runTier o s g maxF st (f :: t)
          = runTier o s g maxF (processFile o s g maxF st f) t := rfl
      rw [hstep]
      have h1 := ih (processFile o s g maxF st f)
      have h2 := processFile_calls_le o s g maxF st f
      simp only [List.length_cons]
      omega

theorem runTiers_ctx_ext
    (o : String → List (String × String) → ContextRequirements)
    (s : List String → List String) (g : String → String) (maxF : Nat) :
    ∀ (tiers : List (List String)) (st : CState),
      ∃ ext, (runTiers o s g maxF st tiers).ctx = st.ctx ++ ext := by
  intro tiers
  induction tiers with
  | nil => intro st; exact ⟨[], by simp [runTiers]⟩
  | cons tr rest ih =>
      intro st
      have hstep : runTiers o s g maxF st (tr :: rest)
          = runTiers o s g maxF
              (if st.halted then st
               else
                 (fun st2 => if st2.ctx.length > maxF then ⟨st2.ctx, true, st2.calls⟩ else st2)
                   (runTier o s g maxF st tr)) rest := rfl
      rw [hstep]
      by_cases hh : st.halted
      · obtain ⟨e2, h2⟩ := ih st
        refine ⟨e2, ?_⟩
        simp only [hh, if_true]
        exact h2
      · obtain ⟨e1, h1⟩ := runTier_ctx_ext o s g maxF tr st
        simp only [hh, if_false, Bool.false_eq_true]
        by_cases hb : (runTier o s g maxF st tr).ctx.length > maxF
        · obtain ⟨e2, h2⟩ := ih ⟨(runTier o s g maxF st tr).ctx, true, (runTier o s g maxF st tr).calls⟩
          refine ⟨e1 ++ e2, ?_⟩
          simp only [hb, if_true]
          rw [h2]
          simp only at h1 ⊢
          rw [h1, List.append_assoc]
        · obtain ⟨e2, h2⟩ := ih (runTier o s g maxF st tr)
          refine ⟨e1 ++ e2, ?_⟩
          simp only [hb, if_false]
          rw [h2, h1, List.append_assoc]

theorem runTiers_calls_le
    (o : String → List (String × String) → ContextRequirements)
    (s : List String → List String) (g : String → String) (maxF : Nat) :
    ∀ (tiers : List (List String)) (st : CState),
      (runTiers o s g maxF st tiers).calls ≤ st.calls + (tiers.map List.length).sum := by
  intro tiers
  induction tiers with
  | nil => intro st; simp [runTiers]
  | cons tr rest ih =>
      intro st
      have hstep : runTiers o s g maxF st (tr :: rest)
          = runTiers o s g maxF
              (if st.halted then st
               else
                 (fun st2 => if st2.ctx.length > maxF then ⟨st2.ctx, true, st2.calls⟩ else st2)
                   (runTier o s g maxF st tr)) rest := rfl
      rw [hstep]
      by_cases hh : st.halted
      · have h2 := ih st
        simp only [hh, if_true]
        simp only [List.map_cons, List.sum_cons]
        omega
      · have h1 := runTier_calls_le o s g maxF tr st
        simp only [hh, if_false, Bool.false_eq_true]
        by_cases hb : (runTier o s g maxF st tr).ctx.length > maxF
        · have h2 := ih ⟨(runTier o s g maxF st tr).ctx, true, (runTier o s g maxF st tr).calls⟩
          simp only [hb, if_true]
          simp only [List.map_cons, List.sum_cons] at *
          omega
        · have h2 := ih (runTier o s g maxF st tr)
          simp only [hb, if_false]
          simp only [List.map_cons, List.sum_cons] at *
          omega

theorem agentRounds_calls_le (oracle : List String → ContextRequirements)
    (readFile : String → Option String) :
    ∀ (n : Nat) (files : List String) (calls : Nat),
      (agentRounds oracle readFile n files calls).2 ≤ calls + n := by
  intro n
  induction n with
  | zero => intro files calls; simp [agentRounds]
  | succ n ih =>
      intro files calls
      simp only [agentRounds]
      split
      · simp
      · split
        · simp
        · split
          · simp
          · exact le_trans (ih _ _) (by omega)

theorem agentRounds_ctx_ext (oracle : List String → ContextRequirements)
    (readFile : String → Option String) :
    ∀ (n : Nat) (files : List String) (calls : Nat),
      ∃ ext, (agentRounds oracle readFile n files calls).1 = files ++ ext := by
  intro n
  induction n with
  | zero => intro files calls; exact ⟨[], by simp [agentRounds]⟩
  | succ n ih =>
      intro files calls
      simp only [agentRounds]
      split
      · exact ⟨[], by simp⟩
      · split
        · exact ⟨[], by simp⟩
        · split
          · exact ⟨(oracle files).required_additional_files.filter
              (fun f => !(files.contains f)), rfl⟩
          · obtain ⟨ext, hext⟩ := ih
              (files ++ (oracle files).required_additional_files.filter
                (fun f => !(files.contains f))) (calls + 1)
            refine ⟨(oracle files).required_additional_files.filter
              (fun f => !(files.contains f)) ++ ext, ?_⟩
            rw [hext, List.append_assoc]

theorem processFile_halted_iff
    (o : String → List (String × String) → ContextRequirements)
    (s : List String → List String) (g : String → String)
    (maxF : Nat) (st : CState) (fp : String) :
    (processFile o s g maxF st fp).halted = true ↔
      st.halted = true
        ∨ ((processFile o s g maxF st fp).ctx.length > maxF
            ∧ (processFile o s g maxF st fp).ctx ≠ st.ctx) := by
  simp only [processFile]
  split
  · rename_i hh
    simp [hh]
  · rename_i hh
    have hhf : st.halted = false := by
      cases hb : st.halted
      · rfl
      · exact absurd hb hh
    split
    · simp [hhf]
    · split
      · simp [hhf]
      · rename_i hreq hne
        have hlen : st.ctx.length <
            (((s (o fp st.ctx).required_additional_files).filter
                (fun f => !(hasKey st.ctx f))).foldl
              (fun m f => dictInsert m f (g f)) st.ctx).length := by
          cases hfs : (s (o fp st.ctx).required_additional_files).filter
              (fun f => !(hasKey st.ctx f)) with
          | nil => rw [hfs] at hne; simp at hne
          | cons f0 fs0 =>
              have hf0 : hasKey st.ctx f0 = false := by
                have hmem : f0 ∈ (s (o fp st.ctx).required_additional_files).filter
                    (fun f => !(hasKey st.ctx f)) := by
                  rw [hfs]; exact List.mem_cons_self _ _
                have := (List.mem_filter.mp hmem).2
                cases hb : hasKey st.ctx f0
                · rfl
                · rw [hb] at this; simp at this
              simp only [List.foldl_cons]
              calc st.ctx.length < st.ctx.length + 1 := by omega
                _ = (dictInsert st.ctx f0 (g f0)).length :=
                    (dictInsert_fresh_length (g f0) hf0).symm
                _ ≤ _ := foldl_dictInsert_length g fs0 (dictInsert st.ctx f0 (g f0))
        have hneq :
            (((s (o fp st.ctx).required_additional_files).filter
                (fun f => !(hasKey st.ctx f))).foldl
              (fun m f => dictInsert m f (g f)) st.ctx) ≠ st.ctx := by
          intro hEq
          rw [hEq] at hlen
          omega
        split
        · rename_i hgt
          simp [hhf, hgt, hneq]
        · rename_i hle
          simp [hhf, hle]

/-! ## Claim C5 -/

/-- C5 (counterexample to the original claim): with the default budget
`max_context_files = 25`, a single changed file and an oracle that is
never satisfied, one resolution round that finds 30 fresh files leaves
the final context with 31 files — the budget check runs only *after*
the whole batch is inserted, so the final context set exceeds
`max_context_files`. -/
theorem context_budget_exceeded_example :
    (runTiers (fun _ _ => ⟨manyNames, false, "need more context"⟩)
        (fun ns => ns) (fun _ => "") default_max_context_files
        ⟨[("a.py", "x")], false, 0⟩ [["a.py"]]).ctx.length = 31
      ∧ 31 > default_max_context_files := by
  constructor
  · rfl
  · decide

/-- C5 (amended): the context-resolution loops always halt within their
round budgets — the flat loop of `main.py` makes at most
`max_iterations` oracle rounds, the tiered loop of `cli.py` at most one
oracle round per changed file — and once a round's insertions push the
context set past `max_context_files` the loop runs no further round;
but the file-count check runs only after a whole batch is inserted, so
the final context set may exceed `max_context_files` by the size of the
last batch. -/
theorem context_resolution_bounds :
    (∀ (oracle : List String → ContextRequirements)
        (readFile : String → Option String) (n : Nat) (files : List String) (calls : Nat),
        (agentRounds oracle readFile n files calls).2 ≤ calls + n)
      ∧ (∀ (o : String → List (String × String) → ContextRequirements)
          (s : List String → List String) (g : String → String)
          (maxF : Nat) (st : CState) (tiers : List (List String)),
          (runTiers o s g maxF st tiers).calls ≤ st.calls + (tiers.map List.length).sum)
      ∧ (∀ (o : String → List (String × String) → ContextRequirements)
          (s : List String → List String) (g : String → String)
          (maxF : Nat) (ctx : List (String × String)) (calls : Nat) (fp : String),
          processFile o s g maxF ⟨ctx, true, calls⟩ fp = ⟨ctx, true, calls⟩)
      ∧ (∀ (o : String → List (String × String) → ContextRequirements)
          (s : List String → List String) (g : String → String)
          (maxF : Nat) (st : CState) (fp : String),
          (processFile o s g maxF st fp).halted = true ↔
            st.halted = true
              ∨ ((processFile o s g maxF st fp).ctx.length > maxF
                  ∧ (processFile o s g maxF st fp).ctx ≠ st.ctx)) := by
  refine ⟨?_, ?_, ?_, ?_⟩
  · intro oracle readFile n files calls
    exact agentRounds_calls_le oracle readFile n files calls
  · intro o s g maxF st tiers
    exact runTiers_calls_le o s g maxF tiers st
  · intro o s g maxF ctx calls fp
    rfl
  · intro o s g maxF st fp
    exact processFile_halted_iff o s g maxF st fp

/-! ## Claim C6 -/

/-- C6: both context-resolution loops only ever extend the context set:
after any single round, any tier sequence, and any number of flat
rounds, the resulting context is the initial context with entries
appended — so its size is non-decreasing and every path present after
some round is still present, in its place and with its content, in
every later round and in the final context. -/
theorem context_set_monotone :
    (∀ (o : String → List (String × String) → ContextRequirements)
        (s : List String → List String) (g : String → String)
        (maxF : Nat) (st : CState) (fp : String),
        ∃ ext, (processFile o s g maxF st fp).ctx = st.ctx ++ ext)
      ∧ (∀ (o : String → List (String × String) → ContextRequirements)
          (s : List String → List String) (g : String → String)
          (maxF : Nat) (st : CState) (tiers : List (List String)),
          ∃ ext, (runTiers o s g maxF st tiers).ctx = st.ctx ++ ext)
      ∧ (∀ (oracle : List String → ContextRequirements)
          (readFile : String → Option String) (n : Nat) (files : List String) (calls : Nat),
          ∃ ext, (agentRounds oracle readFile n files calls).1 = files ++ ext) := by
  refine ⟨?_, ?_, ?_⟩
  · intro o s g maxF st fp
    exact processFile_ctx_ext o s g maxF st fp
  · intro o s g maxF st tiers
    exact runTiers_ctx_ext o s g maxF tiers st
  · intro oracle readFile n files calls
    exact agentRounds_ctx_ext oracle readFile n files calls

/-! ## Claim C7 -/

/-- C7: oracle failures are fail-soft.  `determine_context` returns
`required_additional_files = []` with `is_sufficient = true` both when
the transport fails and when every parse attempt fails; `run_review`
records an empty `ReviewResult` for a file whose review call fails and
still processes the remaining files, producing exactly one result per
input file. -/
theorem oracle_failures_fail_soft :
    (∀ parse : String → Option ContextRequirements,
        (determine_context parse LLMOutcome.fail).required_additional_files = []
          ∧ (determine_context parse LLMOutcome.fail).is_sufficient = true)
      ∧ (∀ raw : String,
          (determine_context (fun _ => Option.none)
              (LLMOutcome.ok raw)).required_additional_files = []
            ∧ (determine_context (fun _ => Option.none)
                (LLMOutcome.ok raw)).is_sufficient = true)
      ∧ (∀ (jp ap : String → Option PyVal) (fp : String)
          (files : List (String × LLMOutcome)),
          run_review jp ap ((fp, LLMOutcome.fail) :: files)
            = (fp, ReviewResult.mk []) :: run_review jp ap files)
      ∧ (∀ (jp ap : String → Option PyVal) (files : List (String × LLMOutcome)),
          (run_review jp ap files).map Prod.fst = files.map Prod.fst) := by
  refine ⟨?_, ?_, ?_, ?_⟩
  · intro parse
    exact ⟨rfl, rfl⟩
  · intro raw
    simp only [determine_context]
    cases h : stripFences (pyStrip raw) with
    | none => exact ⟨rfl, rfl⟩
    | some j => exact ⟨rfl, rfl⟩
  · intro jp ap fp files
    rfl
  · intro jp ap files
    simp [run_review, List.map_map]

/-! ## Claim C8 -/

/-- C8: the review reply pipeline is fail-soft for unparseable text:
whatever `json.loads` and `ast.literal_eval` would do, the exact reply
`"I am a teapot, not a JSON array."` (which contains no bracketed
region) produces `ReviewResult(issues=[])`, and so does any reply in
which no `[` occurs; every other failure path of the pipeline is an
explicit empty-result arm of `processReply`, so no exception escapes. -/
theorem review_reply_parse_fail_soft (jp ap : String → Option PyVal) :
    processReply jp ap "I am a teapot, not a JSON array." = ReviewResult.mk []
      ∧ ∀ text : String, pyFindChar (pyStrip text) '[' = Option.none →
          processReply jp ap text = ReviewResult.mk [] := by
  have h2 : ∀ text : String, pyFindChar (pyStrip text) '[' = Option.none →
      processReply jp ap text = ReviewResult.mk [] := by
    intro text h
    simp only [processReply]
    rw [h]
  exact ⟨h2 _ (by decide), h2⟩

/-- Witness for C8: a concrete bracket-free reply yields an empty
result. -/
theorem review_reply_parse_fail_soft_witness :
    processReply (fun _ => Option.none) (fun _ => Option.none) "no json here"
      = ReviewResult.mk [] :=
  (review_reply_parse_fail_soft (fun _ => Option.none) (fun _ => Option.none)).2
    "no json here" rfl

/-! ## Claim C9 -/

theorem fallbackIssue_line (a : Int) (b : String) (c : PyVal) :
    (fallbackIssue a b c).line_number = a := by
  unfold fallbackIssue
  cases findCategory b <;> rfl

theorem normalize_issue_line_number_eq (raw : List (String × PyVal)) :
    (normalize_issue raw).line_number
      = (pyToInt? (pyOr (pyGet raw "line_number")
          (pyOr (pyGet raw "line") (pyGetD raw "lineNumber" (PyVal.int 0))))).getD 0 := by
  simp only [normalize_issue]
  split
  · cases hv : pyOr (pyGet raw "issue_type") (pyGet raw "type") <;>
      simp [fallbackIssue_line]
  · simp [fallbackIssue_line]

theorem pyOr_int (n : Int) (b : PyVal) :
    pyOr (PyVal.int n) b = if n = 0 then b else PyVal.int n := by
  by_cases h : n = 0
  · simp [pyOr, pyTruthy, h]
  · simp [pyOr, pyTruthy, h]

/-- C9: the line number is accepted under `line_number`, `line` or
`lineNumber` and coerced to an integer with default 0 on any coercion
failure; on the raw record
`{"line": "12", "type": "LogicError", "comment": "x"}` the normalized
issue has integer `line_number = 12` and `issue_type = "LogicError"`. -/
theorem normalize_issue_line_keys :
    ((normalize_issue [("line", PyVal.str "12"), ("type", PyVal.str "LogicError"),
        ("comment", PyVal.str "x")]).line_number = 12
      ∧ (normalize_issue [("line", PyVal.str "12"), ("type", PyVal.str "LogicError"),
          ("comment", PyVal.str "x")]).issue_type = "LogicError")
      ∧ (∀ v : PyVal,
          (normalize_issue [("lineNumber", v)]).line_number = (pyToInt? v).getD 0)
      ∧ (∀ n : Int,
          (normalize_issue [("line_number", PyVal.int n)]).line_number = n) := by
  refine ⟨⟨rfl, rfl⟩, ?_, ?_⟩
  · intro v
    rfl
  · intro n
    rw [normalize_issue_line_number_eq]
    show (pyToInt? (pyOr (PyVal.int n) (pyOr PyVal.none (PyVal.int 0)))).getD 0 = n
    by_cases h : n = 0
    · subst h; rfl
    · rw [pyOr_int, if_neg h]
      rfl

/-! ## Claim C10 -/

/-- C10: `get_file_content` is total and fail-soft: a path containing
the substring `"null"` yields `""`; a missing file yields the
`"File not found: <full path>"` sentinel; any other read failure yields
the `"Could not read file <full path>: <error>"` sentinel; a readable
file yields its content — in every case an ordinary string, never an
exception. -/
theorem get_file_content_cases (fs : String → ReadResult) (repo fp : String) :
    (hasSubstr fp "null" = true → get_file_content fs repo fp = "")
      ∧ (hasSubstr fp "null" = false → fs (osJoin repo fp) = ReadResult.notFound →
          get_file_content fs repo fp = "File not found: " ++ osJoin repo fp)
      ∧ (hasSubstr fp "null" = false → ∀ e, fs (osJoin repo fp) = ReadResult.readErr e →
          get_file_content fs repo fp = "Could not read file " ++ osJoin repo fp ++ ": " ++ e)
      ∧ (hasSubstr fp "null" = false → ∀ c, fs (osJoin repo fp) = ReadResult.found c →
          get_file_content fs repo fp = c) := by
  refine ⟨?_, ?_, ?_, ?_⟩
  · intro h
    simp [get_file_content, h]
  · intro h hfs
    simp [get_file_content, h, hfs]
  · intro h e hfs
    simp [get_file_content, h, hfs]
  · intro h c hfs
    simp [get_file_content, h, hfs]

/-- Witness for C10: a missing file and a `"null"`-containing path at
concrete inputs. -/
theorem get_file_content_cases_witness :
    get_file_content (fun _ => ReadResult.notFound) "repo" "a.py"
        = "File not found: " ++ osJoin "repo" "a.py"
      ∧ get_file_content (fun _ => ReadResult.notFound) "repo" "nullable.py" = "" :=
  ⟨(get_file_content_cases (fun _ => ReadResult.notFound) "repo" "a.py").2.1
      (by decide) rfl,
    (get_file_content_cases (fun _ => ReadResult.notFound) "repo" "nullable.py").1
      (by decide)⟩

end CodeReviewAgent
